import Mathlib

/-!
Verification of the DayZ workshop download server (server.js,
advanced-steam-downloader.js, websocketLogger.js) against its
natural-language specification.  The definitions below are a shallow
embedding of the JavaScript source: the process-resident download table
(`activeDownloads`), the submit / status / file / cleanup endpoints, the
steam-client adapter outcome classification, the retry loop, the archive
verification step, the progress trace of the pipeline, and the log bus.
-/

namespace DZW

/-- Filesystem paths, modelled as segment lists (`path.join` is append,
`path.dirname` is `dropLast`). -/
abbrev Path := List String

/-- Job status strings stored in a download record
(server.js: starting, preparing, downloading, creating_archive,
completed, error, cleaned). -/
inductive Status
  | starting
  | preparing
  | downloading
  | creatingArchive
  | completed
  | error
  | cleaned
deriving DecidableEq

/-- One record of the `activeDownloads` map (server.js lines 1144-1153 plus
the fields merged in by later `updateStatus` calls). -/
structure DownloadRecord where
  id : String
  workshopId : String
  status : Status
  progress : Nat
  startTime : Nat
  downloadPath : Path
  zipPath : Path
  downloadUrl : Option String
  fileSize : Option Nat
  errMsg : Option String
deriving DecidableEq

/-- The `activeDownloads` JS `Map`, embedded as an association list with
first-match lookup. -/
abbrev Registry := List (String × DownloadRecord)

/-- `activeDownloads.get id`. -/
def lookupDownload : Registry → String → Option DownloadRecord
  | [], _ => none
  | p :: ps, id => if p.1 = id then some p.2 else lookupDownload ps id

/-- `activeDownloads.set id d`: replace the first entry with that key, or
append when absent (JS `Map` keys are unique). -/
def setRecord : Registry → String → DownloadRecord → Registry
  | [], id, d => [(id, d)]
  | p :: ps, id, d => if p.1 = id then (id, d) :: ps else p :: setRecord ps id d

/-- `activeDownloads.delete id`. -/
def eraseDownload (reg : Registry) (id : String) : Registry :=
  reg.filter (fun p => !(p.1 = id))

/-- Environment configuration surface used by the endpoints
(MAX_CONCURRENT_DOWNLOADS with default 3, CLEANUP_AFTER_DOWNLOAD,
NEXT_PUBLIC_API_URL, DOWNLOAD_PATH). -/
structure Config where
  maxConcurrent : Nat
  cleanupAfterDownload : Bool
  baseUrl : String
  downloadRoot : Path
deriving DecidableEq

/-- Default configuration: cap 3, the cleanup flag unset. -/
def defaultConfig : Config :=
  { maxConcurrent := 3
    cleanupAfterDownload := false
    baseUrl := "http://localhost:8080"
    downloadRoot := ["tmp", "dayz-workshop-downloads"] }

/-- Validity flags of the scraped workshop metadata consulted by the
submit endpoint. -/
structure WorkshopInfo where
  isValid : Bool
  isDayZ : Bool
deriving DecidableEq

/-- Longest digit run at the head of a character list. -/
def digitsPrefix : List Char → List Char
  | [] => []
  | c :: cs => if c.isDigit then c :: digitsPrefix cs else []

/-- Scan for the first occurrence of the pattern id=(digits), the
embedding of the regex match in `extractWorkshopId`; on a failed match at
one position the scan advances a single character, as the regex engine
does. -/
def findIdDigits : List Char → Option (List Char)
  | [] => none
  | c :: rest =>
    match c, rest with
    | 'i', 'd' :: '=' :: rest2 =>
      let ds := digitsPrefix rest2
      if ds = [] then findIdDigits rest else some ds
    | _, _ => findIdDigits rest

/-- server.js `extractWorkshopId`: first id=(digits) group of the URL, as
a digit string. -/
def extractWorkshopId (url : String) : Option String :=
  (findIdDigits url.data).map fun ds => String.mk ds

/-- Response of POST /api/download, one constructor per return site of the
handler (server.js lines 1084-1177). -/
inductive SubmitResult
  | missingUrl
  | invalidUrl
  | capacityExhausted (activeCount maxConcurrent : Nat)
  | invalidItem (info : WorkshopInfo)
  | wrongApp (info : WorkshopInfo)
  | accepted (downloadId workshopId : String)
deriving DecidableEq

/-- The download id string built at server.js line 1138. -/
def mkDownloadId (now ctr : Nat) : String :=
  "download_" ++ toString now ++ "_" ++ toString ctr

/-- The fresh record placed in `activeDownloads` at submission
(server.js lines 1144-1155). -/
def initialRecord (cfg : Config) (downloadId workshopId : String) (now : Nat) :
    DownloadRecord :=
  { id := downloadId
    workshopId := workshopId
    status := .starting
    progress := 0
    startTime := now
    downloadPath := cfg.downloadRoot ++ [downloadId]
    zipPath := cfg.downloadRoot ++ [downloadId, workshopId ++ ".zip"]
    downloadUrl := none
    fileSize := none
    errMsg := none }

/-- The synchronous part of POST /api/download: URL validation, admission
check against `activeDownloads.size`, metadata validity checks, then
creation of the job record (server.js lines 1084-1177).  `info` is the
result of the external metadata scrape. -/
def submitDownload (cfg : Config) (reg : Registry) (url : Option String)
    (info : WorkshopInfo) (now ctr : Nat) : SubmitResult × Registry :=
  match url with
  | none => (.missingUrl, reg)
  | some u =>
    match extractWorkshopId u with
    | none => (.invalidUrl, reg)
    | some wid =>
      if cfg.maxConcurrent ≤ reg.length then
        (.capacityExhausted reg.length cfg.maxConcurrent, reg)
      else if info.isValid = false then
        (.invalidItem info, reg)
      else if info.isDayZ = false then
        (.wrongApp info, reg)
      else
        let did := mkDownloadId now (ctr + 1)
        (.accepted did wid, setRecord reg did (initialRecord cfg did wid now))

/-- C1: submitting while the active-download table holds at least
maxConcurrent entries returns the CapacityExhausted rejection whose body
carries the current occupancy and the cap, creates no record, and leaves
the table unchanged. -/
theorem submit_at_capacity_rejected (cfg : Config) (reg : Registry)
    (u wid : String) (info : WorkshopInfo) (now ctr : Nat)
    (hid : extractWorkshopId u = some wid)
    (hcap : cfg.maxConcurrent ≤ reg.length) :
    submitDownload cfg reg (some u) info now ctr =
      (.capacityExhausted reg.length cfg.maxConcurrent, reg) := by
  simp only [submitDownload]
  rw [hid]
  simp [hcap]

/-- A record used to fill concrete registries in witnesses. -/
def sampleRecord (n : Nat) : DownloadRecord :=
  { id := "download_0_" ++ toString n
    workshopId := "111"
    status := .downloading
    progress := 10
    startTime := 0
    downloadPath := ["tmp", "dayz-workshop-downloads", "download_0_" ++ toString n]
    zipPath := ["tmp", "dayz-workshop-downloads", "download_0_" ++ toString n, "111.zip"]
    downloadUrl := none
    fileSize := none
    errMsg := none }

/-- A registry already holding three active jobs. -/
def fullRegistry : Registry :=
  [("download_0_1", sampleRecord 1), ("download_0_2", sampleRecord 2),
   ("download_0_3", sampleRecord 3)]

/-- Witness for C1 at a concrete full registry and a concrete workshop URL. -/
theorem submit_at_capacity_rejected_witness :
    extractWorkshopId "https://steamcommunity.com/sharedfiles/filedetails/?id=123" =
        some "123" ∧
    defaultConfig.maxConcurrent ≤ fullRegistry.length ∧
    submitDownload defaultConfig fullRegistry
        (some "https://steamcommunity.com/sharedfiles/filedetails/?id=123")
        ⟨true, true⟩ 5 0 =
      (.capacityExhausted 3 3, fullRegistry) :=
  ⟨by decide, by decide,
    submit_at_capacity_rejected defaultConfig fullRegistry _ "123" ⟨true, true⟩ 5 0
      (by decide) (by decide)⟩

/-!  External-client adapter: outcome classification of one steamcmd run
(advanced-steam-downloader.js).  -/

/-- The substring flags accumulated while reading the stdout of one
steamcmd invocation (`downloadWithCachedSession`, lines 2081-2100).
`sawLoggedInOK` records the textual login-success markers, which the
close handler never consults. -/
structure SteamOutput where
  sawSteamGuard : Bool
  sawTwoFactor : Bool
  sawInvalidPassword : Bool
  sawLoginFailure : Bool
  sawErrorBang : Bool
  sawFailedFailure : Bool
  sawNoSubscription : Bool
  sawAccessDenied : Bool
  sawLoggedInOK : Bool
deriving DecidableEq

/-- Post-run state of the expected content directory
steamapps/workshop/content/appId/itemId: whether it exists and how many
entries `readdirSync` returns. -/
structure ContentDir where
  dirExists : Bool
  entries : Nat
deriving DecidableEq

/-- The `needsReauth` flag of `downloadWithCachedSession`. -/
def cachedNeedsReauth (o : SteamOutput) : Bool :=
  o.sawSteamGuard || o.sawTwoFactor || o.sawInvalidPassword || o.sawLoginFailure

/-- The `hasError` flag of `downloadWithCachedSession`. -/
def cachedHasError (o : SteamOutput) : Bool :=
  o.sawErrorBang || o.sawFailedFailure || o.sawNoSubscription || o.sawAccessDenied

/-- Outcome of one cached-session steamcmd run, one constructor per
resolve/reject site of the close handler (lines 2106-2131). -/
inductive CachedFetchOutcome
  | sessionExpired
  | contentWritten (entries : Nat)
  | transientFailure (detail : String)
deriving DecidableEq

/-- Close handler of `downloadWithCachedSession` (lines 2106-2131):
re-auth markers win, then the mandatory filesystem verification; a
success is possible only when the expected directory holds at least one
entry, and every other run is rejected with a Download-failed error. -/
def downloadWithCachedSessionClose (o : SteamOutput) (c : ContentDir) :
    CachedFetchOutcome :=
  if cachedNeedsReauth o then .sessionExpired
  else if c.dirExists && decide (0 < c.entries) then .contentWritten c.entries
  else .transientFailure (if cachedHasError o then "SteamCMD error" else "No content found")

/-- Errors that can reach the retry loop `retryDownload`, one constructor
per reject site that propagates out of `downloadWorkshopItem`
(advanced-steam-downloader.js).  The steamGuardRequired constructor
stands for the errors whose message contains STEAM_GUARD_REQUIRED. -/
inductive AttemptError
  | downloadTimeout
  | downloadFailed (detail : String)
  | steamGuardRequired (kind : String)
  | fullLoginFailed
  | anonymousFailed
  | noContent
  | verificationFailed
deriving DecidableEq

/-- error.message.includes of STEAM_GUARD_REQUIRED, the only condition
`retryDownload` refuses to retry (line 2372). -/
def AttemptError.mentionsSteamGuard : AttemptError → Bool
  | .steamGuardRequired _ => true
  | _ => false

/-- Outcome of one full-login steamcmd run, one constructor per
resolve/reject site of its close handler (server.js lines 2186-2208);
the hasError flag of that function is set while reading output but the
close handler never consults it. -/
inductive FullLoginOutcome
  | steamGuardRequired
  | contentWritten (entries : Nat)
  | downloadFailed
deriving DecidableEq

/-- Close handler of `downloadWithFullLogin` (lines 2186-2208): the
second-factor markers win, then the filesystem verification; every
other run is rejected with Download failed. -/
def downloadWithFullLoginClose (o : SteamOutput) (c : ContentDir) : FullLoginOutcome :=
  if o.sawSteamGuard || o.sawTwoFactor then .steamGuardRequired
  else if c.dirExists && decide (0 < c.entries) then .contentWritten c.entries
  else .downloadFailed

/-- Outcome of one anonymous steamcmd run, one constructor per
resolve/reject site of its close handler (server.js lines 2307-2325). -/
inductive AnonOutcome
  | contentWritten (entries : Nat)
  | anonymousFailed
  | noContent
deriving DecidableEq

/-- Close handler of `downloadAnonymous` (lines 2307-2325): filesystem
verification first; a run without content is rejected, with the message
depending on the error markers. -/
def downloadAnonymousClose (o : SteamOutput) (c : ContentDir) : AnonOutcome :=
  if c.dirExists && decide (0 < c.entries) then .contentWritten c.entries
  else if o.sawErrorBang || o.sawNoSubscription then .anonymousFailed
  else .noContent

/-- What the fallback steamcmd invocation in server.js (lines 635-699)
accumulates while running: the single hasError flag (fed by the ERROR!,
failed (Failure), No subscription, Access Denied and Item not found
markers), the exit code, and the textual login-success markers. -/
structure FallbackRun where
  hasError : Bool
  exitCode : Int
  sawLoggedInOK : Bool
deriving DecidableEq

/-- Outcome of the fallback invocation. -/
inductive FallbackOutcome
  | resolvedSuccess
  | rejected
deriving DecidableEq

/-- Close handler of the fallback invocation (server.js lines 682-693):
success is decided by exit status and error markers alone.  The state of
the expected content directory is passed in to record that it is
available at close time yet never consulted. -/
def fallbackClose (r : FallbackRun) (_c : ContentDir) : FallbackOutcome :=
  if r.exitCode ≠ 0 ∨ r.hasError = true then .rejected else .resolvedSuccess

/-- What the pipeline content verification (server.js lines 1244-1270)
reads from disk: whether the expected content directory exists, and for
each fallback search path (downloadPath/steamapps,
downloadPath/workshop, downloadPath itself) whether it exists and how
many entries a recursive readdir returns. -/
structure VerificationView where
  expectedDirExists : Bool
  searchPathItems : List (Bool × Nat)
deriving DecidableEq

/-- The pipeline content verification: when the expected directory
exists, even empty, the whole check is skipped; when it is absent the
run continues as soon as any search path holds any item at all, and
only throws No workshop content was downloaded when none does.  Returns
whether the run proceeds. -/
def pipelineContentCheck (v : VerificationView) : Bool :=
  if v.expectedDirExists then true
  else v.searchPathItems.any fun s => s.1 && decide (0 < s.2)

/-- Counterexample to C2 as stated: the fallback invocation resolves
success for a run that exited 0 having printed only success markers,
with the expected content directory absent or empty (the handler never
reads the filesystem); and the pipeline verification afterwards
proceeds both when the expected directory exists but is empty (the
check is skipped) and when it is absent but one unrelated item sits
under the workspace, so textual success alone can carry the job to the
archive step without any retry-eligible failure. -/
theorem textual_success_can_pass_without_content :
    fallbackClose ⟨false, 0, true⟩ ⟨false, 0⟩ = .resolvedSuccess ∧
    fallbackClose ⟨false, 0, true⟩ ⟨true, 0⟩ = .resolvedSuccess ∧
    pipelineContentCheck ⟨true, [(false, 0), (false, 0), (true, 0)]⟩ = true ∧
    pipelineContentCheck ⟨false, [(true, 1), (false, 0), (true, 1)]⟩ = true :=
  ⟨rfl, rfl, rfl, rfl⟩

/-- C2 amended: each steam-client invocation performed through the
AdvancedSteamDownloader (cached-session, full-login, anonymous) treats
filesystem verification as mandatory: with the expected content
directory absent or empty (and no higher-precedence re-auth or
second-factor marker) the run is rejected with a retryable failure,
whatever the textual markers said, and a ContentWritten outcome always
certifies a non-empty directory; the cached-session rejection never
mentions STEAM_GUARD_REQUIRED, so the retry loop retries it.  The
fallback invocation in server.js, by contrast, decides success from
exit status and error markers alone, independent of the directory
state, and the pipeline content check that follows it refuses to
proceed only when the expected directory is absent and every search
path under the workspace is empty or missing. -/
theorem advanced_fetch_requires_content :
    (∀ (o : SteamOutput) (c : ContentDir), cachedNeedsReauth o = false →
      (c.dirExists = false ∨ c.entries = 0) →
      downloadWithCachedSessionClose o c =
        .transientFailure (if cachedHasError o then "SteamCMD error" else "No content found")) ∧
    (∀ (o : SteamOutput) (c : ContentDir) (n : Nat),
      downloadWithCachedSessionClose o c = .contentWritten n →
      c.dirExists = true ∧ 0 < c.entries) ∧
    (∀ (o : SteamOutput) (c : ContentDir), (o.sawSteamGuard || o.sawTwoFactor) = false →
      (c.dirExists = false ∨ c.entries = 0) →
      downloadWithFullLoginClose o c = .downloadFailed) ∧
    (∀ (o : SteamOutput) (c : ContentDir) (n : Nat),
      downloadWithFullLoginClose o c = .contentWritten n →
      c.dirExists = true ∧ 0 < c.entries) ∧
    (∀ (o : SteamOutput) (c : ContentDir),
      (c.dirExists = false ∨ c.entries = 0) →
      downloadAnonymousClose o c =
        (if o.sawErrorBang || o.sawNoSubscription then .anonymousFailed else .noContent)) ∧
    (∀ (o : SteamOutput) (c : ContentDir) (n : Nat),
      downloadAnonymousClose o c = .contentWritten n →
      c.dirExists = true ∧ 0 < c.entries) ∧
    (∀ detail, (AttemptError.downloadFailed detail).mentionsSteamGuard = false) ∧
    (∀ (r : FallbackRun) (c c' : ContentDir), fallbackClose r c = fallbackClose r c') ∧
    (∀ (r : FallbackRun) (c : ContentDir),
      fallbackClose r c = .resolvedSuccess ↔ r.exitCode = 0 ∧ r.hasError = false) ∧
    (∀ (v : VerificationView),
      pipelineContentCheck v = false ↔
        (v.expectedDirExists = false ∧
          ∀ s ∈ v.searchPathItems, s.1 = false ∨ s.2 = 0)) := by
  refine ⟨?_, ?_, ?_, ?_, ?_, ?_, ?_, ?_, ?_, ?_⟩
  · intro o c hre hc
    simp only [downloadWithCachedSessionClose, hre, Bool.false_eq_true, if_false]
    rcases hc with h | h <;> simp [h]
  · intro o c n h
    simp only [downloadWithCachedSessionClose] at h
    by_cases hre : cachedNeedsReauth o = true
    · simp [hre] at h
    · simp only [Bool.not_eq_true] at hre
      simp only [hre, Bool.false_eq_true, if_false] at h
      by_cases hd : (c.dirExists && decide (0 < c.entries)) = true
      · simp only [Bool.and_eq_true, decide_eq_true_eq] at hd
        exact ⟨hd.1, hd.2⟩
      · simp [hd] at h
  · intro o c hg hc
    simp only [downloadWithFullLoginClose, hg, Bool.false_eq_true, if_false]
    rcases hc with h | h <;> simp [h]
  · intro o c n h
    simp only [downloadWithFullLoginClose] at h
    by_cases hg : (o.sawSteamGuard || o.sawTwoFactor) = true
    · simp [hg] at h
    · simp only [Bool.not_eq_true] at hg
      simp only [hg, Bool.false_eq_true, if_false] at h
      by_cases hd : (c.dirExists && decide (0 < c.entries)) = true
      · simp only [Bool.and_eq_true, decide_eq_true_eq] at hd
        exact ⟨hd.1, hd.2⟩
      · simp [hd] at h
  · intro o c hc
    rcases hc with h | h <;> simp [downloadAnonymousClose, h]
  · intro o c n h
    simp only [downloadAnonymousClose] at h
    by_cases hd : (c.dirExists && decide (0 < c.entries)) = true
    · simp only [Bool.and_eq_true, decide_eq_true_eq] at hd
      exact ⟨hd.1, hd.2⟩
    · by_cases he : (o.sawErrorBang || o.sawNoSubscription) = true <;>
        simp [hd, he] at h
  · intro detail
    rfl
  · intro r c c'
    rfl
  · intro r c
    unfold fallbackClose
    by_cases h : r.exitCode ≠ 0 ∨ r.hasError = true
    · rw [if_pos h]
      constructor
      · intro hf; exact absurd hf (by simp)
      · intro hf
        rcases h with h | h
        · exact absurd hf.1 h
        · rw [hf.2] at h; exact absurd h (by simp)
    · rw [if_neg h]
      push_neg at h
      constructor
      · intro _
        exact ⟨h.1, by revert h; cases r.hasError <;> simp⟩
      · intro _; rfl
  · intro v
    by_cases he : v.expectedDirExists = true
    · simp [pipelineContentCheck, he]
    · simp only [Bool.not_eq_true] at he
      simp only [pipelineContentCheck, he, Bool.false_eq_true, if_false]
      rw [List.any_eq_false]
      constructor
      · intro h
        refine ⟨by trivial, ?_⟩
        intro s hs
        have hsf := h s hs
        by_cases h1 : s.1 = true
        · right
          by_contra hne
          have hpos : 0 < s.2 := Nat.pos_of_ne_zero hne
          rw [h1] at hsf
          simp [hpos] at hsf
        · left; revert h1; cases s.1 <;> simp
      · intro h s hs
        rcases h.2 s hs with h1 | h1
        · simp [h1]
        · simp [h1]

/-- A steamcmd run that printed only the login-success marker. -/
def quietSuccessOutput : SteamOutput :=
  ⟨false, false, false, false, false, false, false, false, true⟩

/-- Witness for the amended C2: the quiet successful-looking run is
rejected by all three advanced close handlers when the expected
directory is empty or absent, while the fallback handler resolves it as
success with the directory absent. -/
theorem advanced_fetch_requires_content_witness :
    downloadWithCachedSessionClose quietSuccessOutput ⟨true, 0⟩ =
      .transientFailure "No content found" ∧
    downloadWithFullLoginClose quietSuccessOutput ⟨false, 0⟩ = .downloadFailed ∧
    downloadAnonymousClose quietSuccessOutput ⟨true, 0⟩ = .noContent ∧
    fallbackClose ⟨false, 0, true⟩ ⟨false, 0⟩ = .resolvedSuccess :=
  ⟨advanced_fetch_requires_content.1 quietSuccessOutput ⟨true, 0⟩ rfl (Or.inr rfl),
   advanced_fetch_requires_content.2.2.1 quietSuccessOutput ⟨false, 0⟩ rfl (Or.inl rfl),
   advanced_fetch_requires_content.2.2.2.2.1 quietSuccessOutput ⟨true, 0⟩ (Or.inr rfl),
   (advanced_fetch_requires_content.2.2.2.2.2.2.2.2.1 ⟨false, 0, true⟩ ⟨false, 0⟩).mpr
     ⟨rfl, rfl⟩⟩

/-!  The retry loop `retryDownload` (advanced-steam-downloader.js lines
2335-2385): retryCount 5, retryDelay base 10000 ms, linear backoff.  -/

/-- What one iteration of the loop observes from
`downloadWorkshopItem`: either a resolved result whose verified path
holds `entries` files, or a propagated error. -/
inductive AttemptOutcome
  | ok (entries : Nat)
  | err (e : AttemptError)
deriving DecidableEq

/-- Final result of the retry loop. -/
inductive RetryResult
  | ok (entries : Nat)
  | error (e : AttemptError)
deriving DecidableEq

/-- Trace of one run of the retry loop: how many attempts were started,
the backoff delays waited between them, and the final result (on
exhaustion the last error is rethrown). -/
structure RetryTrace where
  attemptsMade : Nat
  delays : List Nat
  result : RetryResult
deriving DecidableEq

/-- The loop body of `retryDownload`, recursing on the remaining fuel
(retryCount - attempt + 1).  An attempt whose result fails the in-loop
verification (files.length = 0) throws and is treated like any error;
errors mentioning STEAM_GUARD_REQUIRED are rethrown at once; any other
error waits retryDelay · attempt and retries while attempts remain. -/
def retryFrom (rd : Nat) (outcomes : Nat → AttemptOutcome) (attempt : Nat) :
    Nat → RetryTrace
  | 0 => ⟨0, [], .error .verificationFailed⟩
  | fuel + 1 =>
    let step : AttemptError → RetryTrace := fun e =>
      if e.mentionsSteamGuard then ⟨1, [], .error e⟩
      else
        match fuel with
        | 0 => ⟨1, [], .error e⟩
        | _ + 1 =>
          let t := retryFrom rd outcomes (attempt + 1) fuel
          ⟨t.attemptsMade + 1, rd * attempt :: t.delays, t.result⟩
    match outcomes attempt with
    | .ok entries =>
      if 0 < entries then ⟨1, [], .ok entries⟩ else step .verificationFailed
    | .err e => step e

/-- `retryDownload`: up to retryCount = 5 attempts starting at attempt 1. -/
def retryDownload (rd : Nat) (outcomes : Nat → AttemptOutcome) : RetryTrace :=
  retryFrom rd outcomes 1 5

/-- The outcome stream of a job whose first steamcmd run hits an Access
Denied marker with no content written (surfaced by the close handler as
the Download-failed SteamCMD-error rejection) and whose second run
succeeds with 3 files. -/
def accessDeniedThenOk : Nat → AttemptOutcome
  | 1 => .err (.downloadFailed "SteamCMD error")
  | _ => .ok 3

/-- Counterexample to C3 as stated: an access-denied failure does not end
the job.  The loop starts a second attempt after one backoff delay and
the job succeeds, so a non-retry-eligible outcome in the claimed sense is
in fact retried. -/
theorem accessDenied_is_retried :
    retryDownload 10000 accessDeniedThenOk =
      ⟨2, [10000], .ok 3⟩ ∧
    (retryDownload 10000 accessDeniedThenOk).attemptsMade ≠ 1 := by
  constructor
  · rfl
  · decide

/-- One-step unfolding of the loop at its last attempt: whatever happens,
exactly one more attempt is recorded and no further delay is waited. -/
theorem retryFrom_one (rd : Nat) (o : Nat → AttemptOutcome) (a : Nat) :
    retryFrom rd o a 1 =
      (match o a with
       | .ok n => if 0 < n then ⟨1, [], .ok n⟩ else ⟨1, [], .error .verificationFailed⟩
       | .err e => ⟨1, [], .error e⟩) := by
  show (match o a with
    | .ok n =>
      if 0 < n then (⟨1, [], .ok n⟩ : RetryTrace)
      else
        if (AttemptError.verificationFailed).mentionsSteamGuard then
          ⟨1, [], .error .verificationFailed⟩
        else ⟨1, [], .error .verificationFailed⟩
    | .err e => if e.mentionsSteamGuard then ⟨1, [], .error e⟩ else ⟨1, [], .error e⟩) = _
  cases o a with
  | ok n => by_cases hn : 0 < n <;> simp [hn]
  | err e => by_cases hg : e.mentionsSteamGuard <;> simp [hg]

/-- One-step unfolding of the loop while at least two attempts remain. -/
theorem retryFrom_succ (rd : Nat) (o : Nat → AttemptOutcome) (a g : Nat) :
    retryFrom rd o a (g + 2) =
      (match o a with
       | .ok n =>
         if 0 < n then ⟨1, [], .ok n⟩
         else
           ⟨(retryFrom rd o (a + 1) (g + 1)).attemptsMade + 1,
            rd * a :: (retryFrom rd o (a + 1) (g + 1)).delays,
            (retryFrom rd o (a + 1) (g + 1)).result⟩
       | .err e =>
         if e.mentionsSteamGuard then ⟨1, [], .error e⟩
         else
           ⟨(retryFrom rd o (a + 1) (g + 1)).attemptsMade + 1,
            rd * a :: (retryFrom rd o (a + 1) (g + 1)).delays,
            (retryFrom rd o (a + 1) (g + 1)).result⟩) := rfl

/-- Shape of every run of the loop body: at least one and at most `fuel`
attempts are started, and the delays waited are exactly
retryDelay · attempt for the consecutive attempt numbers that failed and
were retried. -/
theorem retryFrom_shape (rd : Nat) (o : Nat → AttemptOutcome) :
    ∀ fuel attempt, 1 ≤ fuel →
      1 ≤ (retryFrom rd o attempt fuel).attemptsMade ∧
      (retryFrom rd o attempt fuel).attemptsMade ≤ fuel ∧
      (retryFrom rd o attempt fuel).delays =
        (List.range' attempt ((retryFrom rd o attempt fuel).attemptsMade - 1)).map
          (fun i => rd * i) := by
  intro fuel
  induction fuel with
  | zero => intro a h; exact absurd h (by omega)
  | succ f ih =>
    intro a _
    cases f with
    | zero =>
      rw [retryFrom_one]
      cases o a with
      | ok n => by_cases hn : 0 < n <;> simp [hn]
      | err e => simp
    | succ g =>
      have hrec := ih (a + 1) (by omega)
      rw [retryFrom_succ]
      have hstep :
          1 ≤ (retryFrom rd o (a + 1) (g + 1)).attemptsMade + 1 ∧
          (retryFrom rd o (a + 1) (g + 1)).attemptsMade + 1 ≤ g + 1 + 1 ∧
          rd * a :: (retryFrom rd o (a + 1) (g + 1)).delays =
            (List.range' a ((retryFrom rd o (a + 1) (g + 1)).attemptsMade + 1 - 1)).map
              (fun i => rd * i) := by
        refine ⟨by omega, by omega, ?_⟩
        rw [hrec.2.2]
        have h1 := hrec.1
        have he : (retryFrom rd o (a + 1) (g + 1)).attemptsMade + 1 - 1 =
            ((retryFrom rd o (a + 1) (g + 1)).attemptsMade - 1) + 1 := by omega
        rw [he, List.range'_succ, List.map_cons]
      cases o a with
      | ok n =>
        by_cases hn : 0 < n
        · simp [hn]
        · simp only [hn, if_false]
          exact hstep
      | err e =>
        by_cases hg : e.mentionsSteamGuard
        · simp [hg]
        · simp only [hg, Bool.false_eq_true, if_false]
          exact hstep

/-- C3 amended: the retry loop performs between 1 and 5 attempts with
linear backoff (the waits are exactly retryDelay · attempt for the
retried attempt numbers), but the only outcome it refuses to retry is
one whose error mentions STEAM_GUARD_REQUIRED (the second-factor
prompt); every other first-attempt failure, including the ones produced
by AccessDenied, NotFound and session-expiry runs, is followed by a
second attempt. -/
theorem retry_policy (rd : Nat) (o : Nat → AttemptOutcome) :
    1 ≤ (retryDownload rd o).attemptsMade ∧
    (retryDownload rd o).attemptsMade ≤ 5 ∧
    (retryDownload rd o).delays =
      (List.range' 1 ((retryDownload rd o).attemptsMade - 1)).map (fun i => rd * i) ∧
    (∀ e, o 1 = .err e → e.mentionsSteamGuard = true →
      retryDownload rd o = ⟨1, [], .error e⟩) ∧
    (∀ e, o 1 = .err e → e.mentionsSteamGuard = false →
      2 ≤ (retryDownload rd o).attemptsMade) := by
  have hs := retryFrom_shape rd o 5 1 (by omega)
  refine ⟨hs.1, hs.2.1, hs.2.2, ?_, ?_⟩
  · intro e ho hg
    show retryFrom rd o 1 5 = _
    have h5 : (5 : Nat) = 3 + 2 := rfl
    rw [h5, retryFrom_succ, ho]
    simp [hg]
  · intro e ho hg
    have hrec := retryFrom_shape rd o 4 2 (by omega)
    show 2 ≤ (retryFrom rd o 1 5).attemptsMade
    have h5 : (5 : Nat) = 3 + 2 := rfl
    rw [h5, retryFrom_succ, ho]
    simp only [hg, Bool.false_eq_true, if_false]
    show 2 ≤ (retryFrom rd o 2 4).attemptsMade + 1
    omega

/-- The outcome stream of a job whose first run is stopped by the Steam
Guard prompt. -/
def guardThenOk : Nat → AttemptOutcome
  | 1 => .err (.steamGuardRequired "mobile")
  | _ => .ok 3

/-- Witness for the amended C3: the second-factor error ends the loop at
attempt 1, while the concrete access-denied failure is retried. -/
theorem retry_policy_witness :
    retryDownload 10000 guardThenOk =
      ⟨1, [], .error (.steamGuardRequired "mobile")⟩ ∧
    2 ≤ (retryDownload 10000 accessDeniedThenOk).attemptsMade :=
  ⟨(retry_policy 10000 guardThenOk).2.2.2.1 _ rfl rfl,
   (retry_policy 10000 accessDeniedThenOk).2.2.2.2 _ rfl rfl⟩

/-!  Archive verification after `createZipArchive` resolves
(server.js lines 1277-1331): existence check, minimum size 512, then the
completed update with fileSize and downloadUrl.  -/

/-- What the pipeline reads back from disk once the archive step
resolves: whether the file at the registered zip path exists, its size,
and the size of the original content tree (used only for the compression
warning, which never fails the build). -/
structure ArchiveCheck where
  zipExists : Bool
  zipSize : Nat
  originalSize : Nat
deriving DecidableEq

/-- minZipSize at server.js line 1311. -/
def minZipSize : Nat := 512

/-- The tail of the pipeline applied to a job record: Error when the zip
file is missing or under the 512-byte floor, otherwise the completed
update (progress 100, fileSize, downloadUrl).  The unusual-compression
branch only logs a warning. -/
def archivePhaseRecord (r : DownloadRecord) (inp : ArchiveCheck) (url : String) :
    DownloadRecord :=
  if inp.zipExists = false then
    { r with status := .error, errMsg := some "ZIP file was not created" }
  else if inp.zipSize < minZipSize then
    { r with status := .error,
             errMsg := some "ZIP file too small - likely empty or corrupted" }
  else
    { r with status := .completed, progress := 100,
             downloadUrl := some url, fileSize := some inp.zipSize }

/-- C4: a job record can come out of the archive phase in the Completed
state only when the archive file exists at the registered path with at
least 512 bytes, and the recorded size is that verified size; an output
below 512 bytes always sends the record to Error. -/
theorem completed_requires_verified_archive :
    (∀ (r : DownloadRecord) (inp : ArchiveCheck) (url : String),
      (archivePhaseRecord r inp url).status = .completed →
      inp.zipExists = true ∧ minZipSize ≤ inp.zipSize ∧
      (archivePhaseRecord r inp url).fileSize = some inp.zipSize) ∧
    (∀ (r : DownloadRecord) (inp : ArchiveCheck) (url : String),
      inp.zipSize < minZipSize →
      (archivePhaseRecord r inp url).status = .error) := by
  constructor
  · intro r inp url h
    by_cases he : inp.zipExists = false
    · simp [archivePhaseRecord, he] at h
    · by_cases hs : inp.zipSize < minZipSize
      · simp [archivePhaseRecord, he, hs] at h
      · refine ⟨by revert he; cases inp.zipExists <;> simp, by omega, ?_⟩
        simp [archivePhaseRecord, he, hs]
  · intro r inp url h
    by_cases he : inp.zipExists = false <;> simp [archivePhaseRecord, he, h]

/-- Witness for C4 at a concrete 2048-byte archive that exists on disk. -/
theorem completed_requires_verified_archive_witness :
    (archivePhaseRecord (sampleRecord 1) ⟨true, 2048, 100000⟩ "u").status = .completed ∧
    (true = true ∧ minZipSize ≤ 2048 ∧
      (archivePhaseRecord (sampleRecord 1) ⟨true, 2048, 100000⟩ "u").fileSize = some 2048) ∧
    (archivePhaseRecord (sampleRecord 1) ⟨true, 511, 100000⟩ "u").status = .error :=
  ⟨by decide,
   completed_requires_verified_archive.1 (sampleRecord 1) ⟨true, 2048, 100000⟩ "u" (by decide),
   completed_requires_verified_archive.2 (sampleRecord 1) ⟨true, 511, 100000⟩ "u" (by decide)⟩

/-!  Progress recording over one pipeline run (server.js
`updateProgress` lines 1182-1202, the download-phase callbacks in
`downloadWorkshopItem` lines 603-700, the archiver progress handler in
`createZipArchive` lines 721-747, and the status updates of the pipeline
at lines 1231, 1235, 1272, 1324).  -/

/-- The Math.min(progress, 100) clamp applied by `updateProgress`. -/
def clampProgress (p : Nat) : Nat := min p 100

/-- The fallback steamcmd progress counter: each observed downloading
line bumps the counter by 2, capped at 55 (server.js lines 654-664).
Returns the emitted values for `n` observed lines starting from
counter `c`. -/
def steamcmdBumps : Nat → Nat → List Nat
  | _, 0 => []
  | c, n + 1 => min (c + 2) 55 :: steamcmdBumps (min (c + 2) 55) n

/-- Values handed to the progress callback during the download phase:
30 before the advanced attempt; on its success 60; on its failure the
fallback emits 35, the capped bumps, then 60 at process close. -/
def downloadEmits (advancedOk : Bool) (chunks : Nat) : List Nat :=
  30 :: (if advancedOk then [60] else 35 :: (steamcmdBumps 35 chunks ++ [60]))

/-- One archiver progress event mapped to a percentage:
min(70 + floor(processed / total · 25), 95). -/
def archivePercent (processed total : Nat) : Nat :=
  min (70 + processed * 25 / total) 95

/-- Values handed to the progress callback by the archiver handler; an
event with total = 0 emits nothing. -/
def archiveEmits (events : List (Nat × Nat)) : List Nat :=
  events.filterMap fun e => if 0 < e.2 then some (archivePercent e.1 e.2) else none

/-- Every progress value recorded into the job record over one
successful pipeline run, in order: 5 (preparing), 10 (downloading), the
clamped download-phase callbacks, 65 (creating_archive), the clamped
archiver callbacks, the clamped 100 at archive close, and 100 at the
completed update. -/
def recordedProgress (advancedOk : Bool) (chunks : Nat) (events : List (Nat × Nat)) :
    List Nat :=
  5 :: 10 :: ((downloadEmits advancedOk chunks).map clampProgress
    ++ 65 :: ((archiveEmits events).map clampProgress ++ [clampProgress 100, 100]))

/-- Glue lemma: two non-decreasing runs concatenate into one when the
first stays at or under a bound that the head of the second reaches. -/
theorem chain_le_glue {l₁ l₂ : List Nat} {m : Nat}
    (h₁ : List.Chain' (· ≤ ·) l₁) (h₂ : List.Chain' (· ≤ ·) l₂)
    (hb : ∀ x ∈ l₁, x ≤ m) (hh : ∀ y ∈ l₂.head?, m ≤ y) :
    List.Chain' (· ≤ ·) (l₁ ++ l₂) := by
  rw [List.chain'_append]
  refine ⟨h₁, h₂, ?_⟩
  intro x hx y hy
  exact le_trans (hb x (List.mem_of_mem_getLast? hx)) (hh y hy)

/-- The bump sequence starting at or under the cap is non-decreasing
from its start and stays between its start and the cap. -/
theorem steamcmdBumps_shape :
    ∀ (n c : Nat), c ≤ 55 →
      List.Chain' (· ≤ ·) (c :: steamcmdBumps c n) ∧
      ∀ x ∈ steamcmdBumps c n, c ≤ x ∧ x ≤ 55 := by
  intro n
  induction n with
  | zero => intro c _; simp [steamcmdBumps]
  | succ m ih =>
    intro c hc
    have hc' : min (c + 2) 55 ≤ 55 := min_le_right _ _
    have hle : c ≤ min (c + 2) 55 := le_min (by omega) hc
    have hrec := ih (min (c + 2) 55) hc'
    constructor
    · exact List.chain'_cons.mpr ⟨hle, hrec.1⟩
    · intro x hx
      rcases List.mem_cons.mp hx with h | h
      · omega
      · have := hrec.2 x h; omega

/-- Division respects cross-multiplied comparisons. -/
theorem nat_div_le_div (a c b d : Nat) (hc : 0 < c) (hd : 0 < d)
    (h : a * d ≤ b * c) : a / c ≤ b / d := by
  rw [Nat.le_div_iff_mul_le hd]
  have h1 : a / c * d * c ≤ b * c := by
    calc a / c * d * c = a / c * c * d := by ring
    _ ≤ a * d := Nat.mul_le_mul_right d (Nat.div_mul_le_self a c)
    _ ≤ b * c := h
  exact Nat.le_of_mul_le_mul_right h1 hc

/-- Percentages derived from events with a non-decreasing
processed-to-total proportion are themselves non-decreasing. -/
theorem archivePercent_mono {p₁ t₁ p₂ t₂ : Nat} (h₁ : 0 < t₁) (h₂ : 0 < t₂)
    (h : p₁ * t₂ ≤ p₂ * t₁) : archivePercent p₁ t₁ ≤ archivePercent p₂ t₂ := by
  unfold archivePercent
  have hdiv : p₁ * 25 / t₁ ≤ p₂ * 25 / t₂ := by
    apply nat_div_le_div _ _ _ _ h₁ h₂
    calc p₁ * 25 * t₂ = p₁ * t₂ * 25 := by ring
    _ ≤ p₂ * t₁ * 25 := Nat.mul_le_mul_right 25 h
    _ = p₂ * 25 * t₁ := by ring
  exact min_le_min (by omega) (le_refl 95)

/-- The archiver emissions of a positive-total, proportion-monotone
event stream form a non-decreasing run within [70, 95]. -/
theorem archiveEmits_shape :
    ∀ (events : List (Nat × Nat)), (∀ e ∈ events, 0 < e.2) →
      List.Chain' (fun a b : Nat × Nat => a.1 * b.2 ≤ b.1 * a.2) events →
      List.Chain' (· ≤ ·) (archiveEmits events) ∧
      ∀ x ∈ archiveEmits events, 70 ≤ x ∧ x ≤ 95 := by
  intro events
  induction events with
  | nil => intro _ _; simp [archiveEmits]
  | cons e tl ih =>
    intro hpos hchain
    have hpe : 0 < e.2 := hpos e (List.mem_cons_self e tl)
    have hpos' : ∀ f ∈ tl, 0 < f.2 := fun f hf => hpos f (List.mem_cons_of_mem e hf)
    have hchain' : List.Chain' (fun a b : Nat × Nat => a.1 * b.2 ≤ b.1 * a.2) tl :=
      (List.chain'_cons'.mp hchain).2
    have hrec := ih hpos' hchain'
    have hemit : archiveEmits (e :: tl) = archivePercent e.1 e.2 :: archiveEmits tl := by
      simp [archiveEmits, hpe]
    constructor
    · rw [hemit]
      apply List.chain'_cons'.mpr
      refine ⟨?_, hrec.1⟩
      intro y hy
      cases tl with
      | nil => simp [archiveEmits] at hy
      | cons f tl2 =>
        have hpf : 0 < f.2 := hpos' f (List.mem_cons_self f tl2)
        have hrel : e.1 * f.2 ≤ f.1 * e.2 := (List.chain'_cons'.mp hchain).1 f (by simp [List.head?])
        have : archiveEmits (f :: tl2) = archivePercent f.1 f.2 :: archiveEmits tl2 := by
          simp [archiveEmits, hpf]
        rw [this] at hy
        simp only [List.head?, Option.mem_def, Option.some.injEq] at hy
        subst hy
        exact archivePercent_mono hpe hpf hrel
    · intro x hx
      rw [hemit] at hx
      rcases List.mem_cons.mp hx with h | h
      · subst h
        unfold archivePercent
        constructor
        · exact le_min (Nat.le_add_right 70 _) (by omega)
        · exact min_le_right _ _
      · exact hrec.2 x h

/-- Clamping is the identity on values at or under 100. -/
theorem map_clamp_of_le (l : List Nat) (h : ∀ x ∈ l, x ≤ 100) :
    l.map clampProgress = l := by
  induction l with
  | nil => rfl
  | cons a tl ih =>
    have ha : a ≤ 100 := h a (List.mem_cons_self a tl)
    have : clampProgress a = a := min_eq_left ha
    simp only [List.map_cons, this, ih fun x hx => h x (List.mem_cons_of_mem a hx)]

/-- C5: over one successful pipeline run whose archiver events carry
positive totals and a non-decreasing processed-to-total proportion, the
sequence of progress values recorded into the job record is
non-decreasing, and every recorded value is clamped at or under 100. -/
theorem progress_monotone_and_clamped (advancedOk : Bool) (chunks : Nat)
    (events : List (Nat × Nat))
    (hpos : ∀ e ∈ events, 0 < e.2)
    (hmono : List.Chain' (fun a b : Nat × Nat => a.1 * b.2 ≤ b.1 * a.2) events) :
    List.Chain' (· ≤ ·) (recordedProgress advancedOk chunks events) ∧
    ∀ x ∈ recordedProgress advancedOk chunks events, x ≤ 100 := by
  have hbump := steamcmdBumps_shape chunks 35 (by omega)
  have harch := archiveEmits_shape events hpos hmono
  -- the download-phase run: non-decreasing, within [30, 60]
  have hdl : List.Chain' (· ≤ ·) (downloadEmits advancedOk chunks) ∧
      ∀ x ∈ downloadEmits advancedOk chunks, 30 ≤ x ∧ x ≤ 60 := by
    unfold downloadEmits
    cases advancedOk with
    | true => simp
    | false =>
      simp only [if_false, Bool.false_eq_true]
      constructor
      · apply List.chain'_cons.mpr
        refine ⟨by omega, ?_⟩
        apply chain_le_glue (m := 55) hbump.1 (by simp)
        · intro x hx
          rcases List.mem_cons.mp hx with h | h
          · omega
          · have := hbump.2 x h; omega
        · intro y hy
          simp only [List.head?, Option.mem_def, Option.some.injEq] at hy
          omega
      · intro x hx
        rcases List.mem_cons.mp hx with h | h
        · omega
        · rcases List.mem_cons.mp h with h2 | h2
          · omega
          · rcases List.mem_append.mp h2 with h3 | h3
            · have := hbump.2 x h3; omega
            · simp at h3; omega
  -- emitted values are all at or under 100, so the clamp is the identity
  have hdlc : (downloadEmits advancedOk chunks).map clampProgress =
      downloadEmits advancedOk chunks :=
    map_clamp_of_le _ fun x hx => by have := (hdl.2 x hx).2; omega
  have harchc : (archiveEmits events).map clampProgress = archiveEmits events :=
    map_clamp_of_le _ fun x hx => by have := (harch.2 x hx).2; omega
  have hclamp100 : clampProgress 100 = 100 := rfl
  unfold recordedProgress
  rw [hdlc, harchc, hclamp100]
  constructor
  · apply List.chain'_cons.mpr
    refine ⟨by omega, ?_⟩
    apply List.chain'_cons'.mpr
    constructor
    · intro y hy
      have hhead : (downloadEmits advancedOk chunks).head? = some 30 := by
        unfold downloadEmits; rfl
      rw [List.head?_append_of_ne_nil] at hy
      · rw [hhead] at hy
        simp only [Option.mem_def, Option.some.injEq] at hy
        omega
      · unfold downloadEmits; simp
    · apply chain_le_glue (m := 60) hdl.1
      · apply List.chain'_cons'.mpr
        constructor
        · intro y hy
          rcases List.mem_append.mp (List.mem_of_mem_head? hy) with h2 | h2
          · have := (harch.2 y h2).1; omega
          · simp at h2; omega
        · apply chain_le_glue (m := 95) harch.1 (by simp)
          · intro x hx; exact (harch.2 x hx).2
          · intro y hy
            simp only [List.head?, Option.mem_def, Option.some.injEq] at hy
            omega
      · intro x hx; exact (hdl.2 x hx).2
      · intro y hy
        simp only [List.head?, Option.mem_def, Option.some.injEq] at hy
        omega
  · intro x hx
    rcases List.mem_cons.mp hx with h | h
    · omega
    · rcases List.mem_cons.mp h with h2 | h2
      · omega
      · rcases List.mem_append.mp h2 with h3 | h3
        · have := (hdl.2 x h3).2; omega
        · rcases List.mem_cons.mp h3 with h4 | h4
          · omega
          · rcases List.mem_append.mp h4 with h5 | h5
            · have := (harch.2 x h5).2; omega
            · simp at h5; omega

/-- Witness for C5 at a concrete fallback run with two downloading lines
and three archiver events over a fixed total. -/
theorem progress_monotone_and_clamped_witness :
    List.Chain' (· ≤ ·) (recordedProgress false 2 [(1, 4), (2, 4), (4, 4)]) ∧
    ∀ x ∈ recordedProgress false 2 [(1, 4), (2, 4), (4, 4)], x ≤ 100 :=
  progress_monotone_and_clamped false 2 [(1, 4), (2, 4), (4, 4)]
    (by decide) (by norm_num [List.chain'_cons, List.chain'_singleton])

/-!  On-disk state, `cleanupFiles`, the manual cleanup endpoint
(DELETE /api/cleanup/:downloadId) and the file-delivery endpoint
(GET /api/download/:downloadId/file).  -/

/-- The on-disk state the server manipulates: existing directories and
existing files with their sizes. -/
structure FsState where
  dirs : List Path
  files : List (Path × Nat)
deriving DecidableEq

/-- root `isUnder` q: q is the path root itself or lies inside it. -/
def isUnder : Path → Path → Bool
  | [], _ => true
  | _, [] => false
  | a :: as, b :: bs => a == b && isUnder as bs

/-- fs.remove of one path: the tree rooted there disappears. -/
def removeTree (fs : FsState) (p : Path) : FsState :=
  { dirs := fs.dirs.filter fun d => !(isUnder p d)
    files := fs.files.filter fun f => !(isUnder p f.1) }

/-- `cleanupFiles` (server.js lines 852-870): each listed path is
removed only when the call is forced or the CLEANUP_AFTER_DOWNLOAD
option is set; otherwise nothing happens. -/
def cleanupFilesOp (cfg : Config) (fs : FsState) (paths : List Path) (force : Bool) :
    FsState :=
  if force || cfg.cleanupAfterDownload then paths.foldl removeTree fs else fs

/-- Combined server state for the endpoints that touch the disk. -/
structure ServerState where
  active : Registry
  fs : FsState
deriving DecidableEq

/-- Response of DELETE /api/cleanup/:downloadId. -/
inductive CleanupResp
  | ok (downloadId : String)
  | notFound
deriving DecidableEq

/-- DELETE /api/cleanup/:downloadId (server.js lines 1548-1580): when
the record exists with a truthy downloadPath, remove the tree (forced)
and drop the record; otherwise answer 404 Download not found. -/
def cleanupEndpoint (cfg : Config) (s : ServerState) (id : String) :
    CleanupResp × ServerState :=
  match lookupDownload s.active id with
  | some d =>
    if d.downloadPath = [] then (.notFound, s)
    else
      (.ok id,
        { active := eraseDownload s.active id
          fs := cleanupFilesOp cfg s.fs [d.downloadPath] true })
  | none => (.notFound, s)

/-- Erasing a key removes every entry with it. -/
theorem lookup_erase (reg : Registry) (id : String) :
    lookupDownload (eraseDownload reg id) id = none := by
  induction reg with
  | nil => rfl
  | cons p ps ih =>
    simp only [eraseDownload, List.filter_cons] at *
    by_cases h : p.1 = id
    · simp [h, ih]
    · simp [h, lookupDownload, ih]

/-- A state fit for exercising the cleanup endpoint: one job, its
workspace on disk. -/
def cleanupDemoState : ServerState :=
  { active := [("d1", sampleRecord 1)]
    fs := { dirs := [["tmp", "dayz-workshop-downloads", "download_0_1"]]
            files := [(["tmp", "dayz-workshop-downloads", "download_0_1", "111.zip"], 2048)] } }

/-- Counterexample to C6 as stated: the first cleanup call succeeds, but
the second call on the already-cleaned job answers the 404 not-found
response, not success (it does leave the state unchanged). -/
theorem second_cleanup_returns_not_found :
    (cleanupEndpoint defaultConfig cleanupDemoState "d1").1 = .ok "d1" ∧
    (cleanupEndpoint defaultConfig
        (cleanupEndpoint defaultConfig cleanupDemoState "d1").2 "d1").1 = .notFound ∧
    (cleanupEndpoint defaultConfig
        (cleanupEndpoint defaultConfig cleanupDemoState "d1").2 "d1").2 =
      (cleanupEndpoint defaultConfig cleanupDemoState "d1").2 := by
  refine ⟨rfl, rfl, rfl⟩

/-- C6 amended: cleanup of an unknown identifier answers not-found and
mutates nothing, and a second cleanup call on any identifier, cleaned or
not, answers not-found and mutates nothing; the state change is
idempotent but the repeated response is the not-found signal rather than
success. -/
theorem cleanup_state_idempotent (cfg : Config) (s : ServerState) (id : String) :
    (lookupDownload s.active id = none → cleanupEndpoint cfg s id = (.notFound, s)) ∧
    cleanupEndpoint cfg (cleanupEndpoint cfg s id).2 id =
      (.notFound, (cleanupEndpoint cfg s id).2) := by
  constructor
  · intro h
    simp [cleanupEndpoint, h]
  · cases hl : lookupDownload s.active id with
    | none => simp [cleanupEndpoint, hl]
    | some d =>
      by_cases hp : d.downloadPath = []
      · simp [cleanupEndpoint, hl, hp]
      · simp only [cleanupEndpoint, hl, if_neg hp]
        simp [cleanupEndpoint, lookup_erase]

/-- Witness for the amended C6 at a fresh identifier and at the demo
state. -/
theorem cleanup_state_idempotent_witness :
    cleanupEndpoint defaultConfig cleanupDemoState "nope" =
      (.notFound, cleanupDemoState) ∧
    cleanupEndpoint defaultConfig
        (cleanupEndpoint defaultConfig cleanupDemoState "d1").2 "d1" =
      (.notFound, (cleanupEndpoint defaultConfig cleanupDemoState "d1").2) :=
  ⟨(cleanup_state_idempotent defaultConfig cleanupDemoState "nope").1 rfl,
   (cleanup_state_idempotent defaultConfig cleanupDemoState "d1").2⟩

/-- Lookup of the file size at a path. -/
def fileSizeAt (fs : FsState) (p : Path) : Option Nat :=
  (fs.files.find? fun f => f.1 == p).map fun f => f.2

/-- Response of GET /api/download/:downloadId/file. -/
inductive FileResp
  | notFound
  | notCompleted
  | whole (size : Nat)
  | byteRange (start finish size : Nat)
deriving DecidableEq

/-- GET /api/download/:downloadId/file (server.js lines 1401-1545).
`range` carries the parsed Range header; `finished` reports whether the
response stream fired its finish event.  The finish handler, which runs
`cleanupFiles` on the dirname of the zip without force and then drops
the record, is installed only for non-range requests. -/
def fileEndpoint (cfg : Config) (s : ServerState) (id : String)
    (range : Option (Nat × Option Nat)) (finished : Bool) : FileResp × ServerState :=
  match lookupDownload s.active id with
  | none => (.notFound, s)
  | some d =>
    if d.status ≠ .completed then (.notCompleted, s)
    else
      match fileSizeAt s.fs d.zipPath with
      | none => (.notFound, s)
      | some size =>
        match range with
        | some (st, en) => (.byteRange st (en.getD (size - 1)) size, s)
        | none =>
          if finished then
            (.whole size,
              { active := eraseDownload s.active id
                fs := cleanupFilesOp cfg s.fs [d.zipPath.dropLast] false })
          else (.whole size, s)

/-- Nothing under a removed tree survives in the directory set. -/
theorem removeTree_dirs (fs : FsState) (p : Path) :
    ∀ dd ∈ (removeTree fs p).dirs, isUnder p dd = false := by
  intro dd hdd
  have h := List.of_mem_filter hdd
  simpa using h

/-- A completed job ready for delivery under the default (flag unset)
configuration. -/
def deliveryRecord : DownloadRecord :=
  { sampleRecord 1 with
      status := .completed, progress := 100,
      downloadUrl := some "http://localhost:8080/api/download/d1/file",
      fileSize := some 2048 }

/-- State holding the completed job, its workspace directory and its
archive file. -/
def deliveryState : ServerState :=
  { active := [("d1", deliveryRecord)]
    fs := { dirs := [["tmp", "dayz-workshop-downloads", "download_0_1"]]
            files := [(["tmp", "dayz-workshop-downloads", "download_0_1", "111.zip"], 2048)] } }

/-- Counterexample to C7 as stated: under the default configuration
(CLEANUP_AFTER_DOWNLOAD unset) a successful whole-file delivery drops
the job record yet leaves the workspace directory on disk, so delivery
does not dispose the workspace. -/
theorem delivery_without_flag_keeps_workspace :
    (fileEndpoint defaultConfig deliveryState "d1" none true).1 = .whole 2048 ∧
    lookupDownload (fileEndpoint defaultConfig deliveryState "d1" none true).2.active
        "d1" = none ∧
    (fileEndpoint defaultConfig deliveryState "d1" none true).2.fs.dirs =
      [["tmp", "dayz-workshop-downloads", "download_0_1"]] := by
  refine ⟨rfl, rfl, rfl⟩

/-- C7 amended: a byte-range fetch never changes any state (the job
record, the registry and the disk are untouched), while a finished
whole-file delivery always drops the job record and invokes workspace
cleanup without force, so the workspace tree is removed exactly when the
cleanup-after-download option is enabled and is kept otherwise. -/
theorem fetch_delivery_semantics (cfg : Config) (s : ServerState) (id : String) :
    (∀ (r : Nat × Option Nat) (finished : Bool),
      (fileEndpoint cfg s id (some r) finished).2 = s) ∧
    (∀ (d : DownloadRecord) (size : Nat),
      lookupDownload s.active id = some d → d.status = .completed →
      fileSizeAt s.fs d.zipPath = some size →
      (fileEndpoint cfg s id none true).1 = .whole size ∧
      lookupDownload (fileEndpoint cfg s id none true).2.active id = none ∧
      (cfg.cleanupAfterDownload = true →
        ∀ dd ∈ (fileEndpoint cfg s id none true).2.fs.dirs,
          isUnder d.zipPath.dropLast dd = false) ∧
      (cfg.cleanupAfterDownload = false →
        (fileEndpoint cfg s id none true).2.fs = s.fs)) := by
  constructor
  · intro r finished
    cases hl : lookupDownload s.active id with
    | none => simp [fileEndpoint, hl]
    | some d =>
      by_cases hst : d.status = .completed
      · cases hf : fileSizeAt s.fs d.zipPath with
        | none => simp [fileEndpoint, hl, hst, hf]
        | some size => simp [fileEndpoint, hl, hst, hf]
      · simp [fileEndpoint, hl, hst]
  · intro d size hl hst hf
    have hout : fileEndpoint cfg s id none true =
        (.whole size,
          { active := eraseDownload s.active id
            fs := cleanupFilesOp cfg s.fs [d.zipPath.dropLast] false }) := by
      simp [fileEndpoint, hl, hst, hf]
    refine ⟨by rw [hout], by rw [hout]; exact lookup_erase s.active id, ?_, ?_⟩
    · intro hflag dd hdd
      rw [hout] at hdd
      simp only [cleanupFilesOp, hflag, Bool.or_true, if_true, List.foldl_cons,
        List.foldl_nil] at hdd
      exact removeTree_dirs s.fs d.zipPath.dropLast dd hdd
    · intro hflag
      rw [hout]
      simp [cleanupFilesOp, hflag]

/-- Configuration with the cleanup-after-download option enabled. -/
def flaggedConfig : Config := { defaultConfig with cleanupAfterDownload := true }

/-- Witness for the amended C7: a concrete range request leaves the
state alone, and a finished delivery under the enabled flag leaves no
directory under the workspace. -/
theorem fetch_delivery_semantics_witness :
    (fileEndpoint defaultConfig deliveryState "d1" (some (0, some 99)) false).2 =
      deliveryState ∧
    lookupDownload (fileEndpoint flaggedConfig deliveryState "d1" none true).2.active
        "d1" = none ∧
    (∀ dd ∈ (fileEndpoint flaggedConfig deliveryState "d1" none true).2.fs.dirs,
      isUnder deliveryRecord.zipPath.dropLast dd = false) :=
  ⟨(fetch_delivery_semantics defaultConfig deliveryState "d1").1 (0, some 99) false,
   ((fetch_delivery_semantics flaggedConfig deliveryState "d1").2 deliveryRecord 2048
      rfl rfl rfl).2.1,
   ((fetch_delivery_semantics flaggedConfig deliveryState "d1").2 deliveryRecord 2048
      rfl rfl rfl).2.2.1 rfl⟩

/-!  Status endpoint (GET /api/status/:downloadId, server.js lines
1065-1078) and the completed-record invariant it relies on.  -/

/-- server.js `generateDownloadUrl` (lines 873-876). -/
def generateDownloadUrl (cfg : Config) (downloadId : String) : String :=
  cfg.baseUrl ++ "/api/download/" ++ downloadId ++ "/file"

/-- Response of GET /api/status/:downloadId: res.json serialises the
record, so the caller holds a by-value snapshot. -/
inductive StatusResp
  | notFound
  | ok (snapshot : DownloadRecord)
deriving DecidableEq

/-- GET /api/status/:downloadId: looks the record up; for a completed
record with a truthy zipPath it writes downloadUrl into the stored
object before serialising it. -/
def serveStatus (cfg : Config) (reg : Registry) (id : String) :
    StatusResp × Registry :=
  match lookupDownload reg id with
  | none => (.notFound, reg)
  | some d =>
    let d2 := if d.status = .completed ∧ d.zipPath ≠ [] then
        { d with downloadUrl := some (generateDownloadUrl cfg id) } else d
    (.ok d2, setRecord reg id d2)

/-- Writing back the value already stored under a key is the identity. -/
theorem setRecord_self (reg : Registry) (id : String) (d : DownloadRecord)
    (h : lookupDownload reg id = some d) : setRecord reg id d = reg := by
  induction reg with
  | nil => simp [lookupDownload] at h
  | cons p ps ih =>
    by_cases hp : p.1 = id
    · simp only [lookupDownload, if_pos hp] at h
      cases p with
      | mk k v =>
        simp only at hp
        subst hp
        simp only [Option.some.injEq] at h
        subst h
        simp [setRecord]
    · simp only [lookupDownload, if_neg hp] at h
      simp [setRecord, hp, ih h]

/-- The invariant every record reachable in the table satisfies: a
completed record already carries the download URL computed from its own
id. -/
def completedUrlInv (cfg : Config) (id : String) (d : DownloadRecord) : Prop :=
  d.status = .completed → d.downloadUrl = some (generateDownloadUrl cfg id)

/-- C8: a status query on a record satisfying the completed-URL
invariant returns that record by value and leaves the stored table
untouched (so mutating the serialised snapshot cannot reach the store),
and both the record created at submission and the record produced by the
completed update of the archive phase satisfy the invariant. -/
theorem status_returns_snapshot_and_preserves_registry (cfg : Config) :
    (∀ (reg : Registry) (id : String) (d : DownloadRecord),
      lookupDownload reg id = some d → completedUrlInv cfg id d →
      serveStatus cfg reg id = (.ok d, reg)) ∧
    (∀ (id : String) (r : DownloadRecord) (inp : ArchiveCheck),
      completedUrlInv cfg id (archivePhaseRecord r inp (generateDownloadUrl cfg id))) ∧
    (∀ (id wid : String) (now : Nat),
      completedUrlInv cfg id (initialRecord cfg id wid now)) := by
  refine ⟨?_, ?_, ?_⟩
  · intro reg id d hl hinv
    have hd2 : (if d.status = .completed ∧ d.zipPath ≠ [] then
        { d with downloadUrl := some (generateDownloadUrl cfg id) } else d) = d := by
      by_cases h : d.status = .completed ∧ d.zipPath ≠ []
      · rw [if_pos h]
        have hu := hinv h.1
        cases d
        simp only [DownloadRecord.mk.injEq] at *
        simp_all
      · rw [if_neg h]
    simp only [serveStatus, hl]
    rw [hd2, setRecord_self reg id d hl]
  · intro id r inp
    intro hst
    unfold archivePhaseRecord at *
    by_cases he : inp.zipExists = false
    · simp [he] at hst
    · by_cases hs : inp.zipSize < minZipSize
      · simp [he, hs] at hst
      · simp [he, hs]
  · intro id wid now hst
    simp [initialRecord] at hst

/-- Witness for C8 at the concrete completed delivery record, whose
stored URL is exactly the generated one. -/
theorem status_returns_snapshot_witness :
    serveStatus defaultConfig [("d1", deliveryRecord)] "d1" =
      (.ok deliveryRecord, [("d1", deliveryRecord)]) :=
  (status_returns_snapshot_and_preserves_registry defaultConfig).1
    [("d1", deliveryRecord)] "d1" deliveryRecord rfl (fun _ => by decide)

/-!  The admission counter counts records of every status; removal
happens only through delivery, manual cleanup, clear-all or the
periodic sweep (server.js lines 1093-1107, 1335-1362, 1511-1537,
1548-1580, 1610-1649, 1652-1684).  -/

/-- The catch branch of the pipeline (server.js lines 1335-1362): the
record, when still present, is rewritten to the error state and kept in
the table. -/
def setJobError (reg : Registry) (id : String) (msg : String) : Registry :=
  match lookupDownload reg id with
  | some d => setRecord reg id { d with status := .error, errMsg := some msg }
  | none => reg

/-- The periodic cleanup pass (server.js lines 1652-1684): records whose
startTime lies more than two hours (7200000 ms) in the past are removed;
every other record stays. -/
def sweepRegistry (now : Nat) (reg : Registry) : Registry :=
  reg.filter fun p => !(decide (7200000 < now - p.2.startTime))

/-- POST /api/clear (server.js lines 1610-1649): activeDownloads.clear. -/
def clearAllDownloads (_reg : Registry) : Registry := []

/-- Overwriting an existing key preserves the key sequence. -/
theorem setRecord_keys (reg : Registry) (id : String) (d : DownloadRecord) :
    ∀ d0, lookupDownload reg id = some d0 →
      (setRecord reg id d).map Prod.fst = reg.map Prod.fst := by
  induction reg with
  | nil => intro d0 h; simp [lookupDownload] at h
  | cons p ps ih =>
    intro d0 h
    by_cases hp : p.1 = id
    · simp [setRecord, hp]
    · simp only [lookupDownload, if_neg hp] at h
      simp [setRecord, hp, ih d0 h]

/-- C10: the admission check rejects at the cap even when every counted
job is already terminal; the error path keeps its record (same keys,
same occupancy); the sweeper removes exactly the records older than two
hours; and manual cleanup, clear-all and a finished whole-file delivery
are the operations that drop records. -/
theorem occupancy_counts_terminal_jobs (cfg : Config) (reg : Registry) :
    (∀ (u wid : String) (info : WorkshopInfo) (now ctr : Nat),
      extractWorkshopId u = some wid →
      (∀ p ∈ reg, p.2.status = .completed ∨ p.2.status = .error) →
      cfg.maxConcurrent ≤ reg.length →
      submitDownload cfg reg (some u) info now ctr =
        (.capacityExhausted reg.length cfg.maxConcurrent, reg)) ∧
    (∀ id msg, (setJobError reg id msg).map Prod.fst = reg.map Prod.fst ∧
      (setJobError reg id msg).length = reg.length) ∧
    (∀ (now : Nat) (id : String) (d : DownloadRecord),
      (id, d) ∈ sweepRegistry now reg ↔
        (id, d) ∈ reg ∧ now - d.startTime ≤ 7200000) ∧
    (∀ (s : ServerState) (id : String) (d : DownloadRecord),
      lookupDownload s.active id = some d → ¬ d.downloadPath = [] →
      lookupDownload (cleanupEndpoint cfg s id).2.active id = none) ∧
    clearAllDownloads reg = [] ∧
    (∀ (s : ServerState) (id : String) (d : DownloadRecord) (size : Nat),
      lookupDownload s.active id = some d → d.status = .completed →
      fileSizeAt s.fs d.zipPath = some size →
      lookupDownload (fileEndpoint cfg s id none true).2.active id = none) := by
  refine ⟨?_, ?_, ?_, ?_, rfl, ?_⟩
  · intro u wid info now ctr hid _hterm hcap
    simp only [submitDownload]
    rw [hid]
    simp [hcap]
  · intro id msg
    have hkeys : (setJobError reg id msg).map Prod.fst = reg.map Prod.fst := by
      unfold setJobError
      cases hl : lookupDownload reg id with
      | none => rfl
      | some d => exact setRecord_keys reg id _ d hl
    refine ⟨hkeys, ?_⟩
    have h1 : ((setJobError reg id msg).map Prod.fst).length =
        (reg.map Prod.fst).length := by rw [hkeys]
    simpa using h1
  · intro now id d
    simp only [sweepRegistry, List.mem_filter, Bool.not_eq_true', decide_eq_false_iff_not,
      Nat.not_lt]
  · intro s id d hl hp
    simp only [cleanupEndpoint, hl, if_neg hp]
    exact lookup_erase s.active id
  · intro s id d size hl hst hf
    simp only [fileEndpoint, hl, hst, hf]
    simp only [ne_eq, not_true_eq_false, if_false, if_true]
    exact lookup_erase s.active id

/-- Three records all in terminal states. -/
def terminalRegistry : Registry :=
  [("t1", { sampleRecord 1 with status := .completed }),
   ("t2", { sampleRecord 2 with status := .error }),
   ("t3", { sampleRecord 3 with status := .error })]

/-- Witness for C10: the fully terminal registry still rejects a valid
submission at the cap, the error path keeps its record, the sweeper
keeps a fresh record, and cleanup of the demo job drops it. -/
theorem occupancy_counts_terminal_jobs_witness :
    submitDownload defaultConfig terminalRegistry
        (some "https://steamcommunity.com/sharedfiles/filedetails/?id=123")
        ⟨true, true⟩ 5 0 =
      (.capacityExhausted 3 3, terminalRegistry) ∧
    (setJobError terminalRegistry "t1" "boom").length = terminalRegistry.length ∧
    (("t1", { sampleRecord 1 with status := .completed }) ∈
        sweepRegistry 1000 terminalRegistry ↔
      ("t1", { sampleRecord 1 with status := .completed }) ∈ terminalRegistry ∧
        1000 - (sampleRecord 1).startTime ≤ 7200000) ∧
    lookupDownload (cleanupEndpoint defaultConfig cleanupDemoState "d1").2.active
        "d1" = none :=
  ⟨(occupancy_counts_terminal_jobs defaultConfig terminalRegistry).1 _ "123"
      ⟨true, true⟩ 5 0 (by decide) (by decide) (by decide),
   ((occupancy_counts_terminal_jobs defaultConfig terminalRegistry).2.1 "t1" "boom").2,
   (occupancy_counts_terminal_jobs defaultConfig terminalRegistry).2.2.1 1000 "t1" _,
   (occupancy_counts_terminal_jobs defaultConfig cleanupDemoState.active).2.2.2.1
      cleanupDemoState "d1" (sampleRecord 1) rfl (by decide)⟩

/-!  Log bus (websocketLogger.js): record ids, the bounded history ring
and the burst-then-live delivery to one subscriber.  -/

/-- One call of WebSocketLogger.log, reduced to what determines the
record id: the Date.now() reading in milliseconds and the Math.random()
draw, combined as id = now + rand. -/
structure LogPublish where
  nowMs : Nat
  rand : ℚ
deriving DecidableEq

/-- The record id Date.now() + Math.random() (websocketLogger.js line
564). -/
def mkLogId (p : LogPublish) : ℚ := (p.nowMs : ℚ) + p.rand

/-- The last n elements of a list (Array.prototype.slice with a negative
index). -/
def sliceLast {α : Type} (n : Nat) (l : List α) : List α := l.drop (l.length - n)

/-- One log call applied to the history ring: push, then trim to the
most recent maxHistorySize = 1000 entries (websocketLogger.js lines
572-578). -/
def pushTrim (h : List ℚ) (x : ℚ) : List ℚ :=
  if 1000 < (h ++ [x]).length then sliceLast 1000 (h ++ [x]) else h ++ [x]

/-- The ids held in logHistory after a sequence of log calls. -/
def historyOf (pubs : List LogPublish) : List ℚ :=
  pubs.foldl (fun h p => pushTrim h (mkLogId p)) []

/-- The id sequence one subscriber receives: at connect, the burst of
the 50 most recent history entries (lines 499-505), then the id of each
subsequently broadcast record (lines 561-599, 621-639). -/
def subscriberReceived (before after : List LogPublish) : List ℚ :=
  sliceLast 50 (historyOf before) ++ after.map mkLogId

/-- Counterexample to C9 as stated: two records logged within the same
millisecond can draw random fractions out of order, so the id sequence a
subscriber receives is not always strictly increasing. -/
theorem same_millisecond_ids_can_decrease :
    ¬ List.Chain' (· < ·)
        (subscriberReceived [] [⟨1000, 9 / 10⟩, ⟨1000, 1 / 10⟩]) := by
  intro h
  have he : subscriberReceived [] [⟨1000, 9 / 10⟩, ⟨1000, 1 / 10⟩] =
      [mkLogId ⟨1000, 9 / 10⟩, mkLogId ⟨1000, 1 / 10⟩] := rfl
  rw [he] at h
  have h1 := (List.chain'_cons.mp h).1
  unfold mkLogId at h1
  norm_num at h1

/-- Ids follow publish order strictly when the millisecond clock
strictly advances between publishes and every random draw lies in
[0, 1). -/
theorem mkLogId_chain :
    ∀ (l : List LogPublish),
      List.Chain' (fun p q => p.nowMs < q.nowMs) l →
      (∀ p ∈ l, 0 ≤ p.rand ∧ p.rand < 1) →
      List.Chain' (· < ·) (l.map mkLogId) := by
  intro l
  induction l with
  | nil => intro _ _; simp
  | cons p tl ih =>
    intro hchain hb
    have hb' : ∀ q ∈ tl, 0 ≤ q.rand ∧ q.rand < 1 :=
      fun q hq => hb q (List.mem_cons_of_mem p hq)
    have hchain' := (List.chain'_cons'.mp hchain).2
    cases tl with
    | nil => simp
    | cons q tl2 =>
      apply List.chain'_cons.mpr
      constructor
      · have hlt : p.nowMs < q.nowMs := (List.chain'_cons.mp hchain).1
        have hp1 : p.rand < 1 := (hb p (List.mem_cons_self p _)).2
        have hq0 : 0 ≤ q.rand := (hb' q (List.mem_cons_self q _)).1
        have hcast : (p.nowMs : ℚ) + 1 ≤ (q.nowMs : ℚ) := by
          have : p.nowMs + 1 ≤ q.nowMs := hlt
          exact_mod_cast this
        unfold mkLogId
        linarith
      · exact ih hchain' hb'

/-- pushTrim keeps the history a suffix of all published ids. -/
theorem pushTrim_suffix {h m : List ℚ} (x : ℚ) (hs : h <:+ m) :
    pushTrim h x <:+ m ++ [x] := by
  have happ : h ++ [x] <:+ m ++ [x] := by
    obtain ⟨t, ht⟩ := hs
    exact ⟨t, by rw [← ht, List.append_assoc]⟩
  unfold pushTrim
  split
  · exact (List.drop_suffix _ _).trans happ
  · exact happ

/-- The history ring after any publish sequence is a suffix of the full
id sequence. -/
theorem historyOf_suffix (pubs : List LogPublish) :
    historyOf pubs <:+ pubs.map mkLogId := by
  have hgen : ∀ (l : List LogPublish) (h m : List ℚ), h <:+ m →
      l.foldl (fun h p => pushTrim h (mkLogId p)) h <:+ m ++ l.map mkLogId := by
    intro l
    induction l with
    | nil => intro h m hs; simpa using hs
    | cons p tl ih =>
      intro h m hs
      have hstep := pushTrim_suffix (mkLogId p) hs
      have := ih (pushTrim h (mkLogId p)) (m ++ [mkLogId p]) hstep
      simpa [List.append_assoc] using this
  have := hgen pubs [] [] List.nil_suffix
  simpa using this

/-- C9 amended: the id sequence a subscriber receives, the burst of
recent records followed by the live records, is strictly increasing
whenever the millisecond timestamps of the underlying publishes strictly
increase (with every random draw in [0, 1)); records published within
one millisecond need not keep the order of their ids. -/
theorem subscriber_ids_strictly_increasing (before after : List LogPublish)
    (hclock : List.Chain' (fun p q => p.nowMs < q.nowMs) (before ++ after))
    (hrand : ∀ p ∈ before ++ after, 0 ≤ p.rand ∧ p.rand < 1) :
    List.Chain' (· < ·) (subscriberReceived before after) := by
  have hall : List.Chain' (· < ·) ((before ++ after).map mkLogId) :=
    mkLogId_chain (before ++ after) hclock hrand
  have hsub : subscriberReceived before after <:+ (before ++ after).map mkLogId := by
    have h1 : sliceLast 50 (historyOf before) <:+ before.map mkLogId :=
      (List.drop_suffix _ _).trans (historyOf_suffix before)
    obtain ⟨t, ht⟩ := h1
    refine ⟨t, ?_⟩
    rw [List.map_append, ← ht]
    simp [subscriberReceived, List.append_assoc]
  exact hall.sublist hsub.sublist

/-- Witness for the amended C9: three publishes across distinct
milliseconds, the first two seen in the burst, the third live. -/
theorem subscriber_ids_strictly_increasing_witness :
    List.Chain' (· < ·)
      (subscriberReceived [⟨1000, 1 / 10⟩, ⟨1001, 9 / 10⟩] [⟨1002, 0⟩]) :=
  subscriber_ids_strictly_increasing [⟨1000, 1 / 10⟩, ⟨1001, 9 / 10⟩] [⟨1002, 0⟩]
    (by norm_num [List.chain'_cons, List.chain'_singleton])
    (by intro p hp; fin_cases hp <;> norm_num)

end DZW
